import Mathlib

/-!
Verification development for the ATPL quiz application (`src/App.tsx`).

The two components embedded here are the text-bank parser `parseQuestions`
and the session engine (`pickNextQuestionId`, `handleAnswer`, `handleNext`,
`handleReset`, the start-button handler, and the progress-initialisation
effect).  Strings are modelled as `List Char`; JavaScript numbers holding
counters are modelled as `Nat` (they are only ever incremented by 1 from 0
or compared, far below any floating-point precision limit).
-/

/-! ## Character classes and basic string operations

`isWs` models the ASCII part of JavaScript's `\s` class and of
`String.prototype.trim` (the corpus and all inputs exercised here are
ASCII/Cyrillic text without exotic Unicode spaces). -/

def isWs (c : Char) : Bool :=
  c = ' ' || c = '\t' || c = '\n' || c = '\r' || c = '\x0b' || c = '\x0c'

def dropWs (l : List Char) : List Char :=
  l.dropWhile isWs

/-- JavaScript `String.prototype.trim`: whitespace removed from both ends. -/
def trimWs (l : List Char) : List Char :=
  dropWs (List.reverse (dropWs (List.reverse l)))

/-- `Number` applied to a captured run of decimal digits. -/
def digitsToNat (ds : List Char) : Nat :=
  ds.foldl (fun n c => n * 10 + (c.toNat - '0'.toNat)) 0

/-! ## Block separator: `raw.split(/\n\s*_{35,}\s*\n/g)`

`matchSep cs` attempts to match the separator regex at the start of `cs`:
a newline, then greedy whitespace, then at least 35 underscores, then
whitespace that must contain a newline; due to greedy matching with
backtracking the match ends just after the last newline of that final
whitespace run.  It returns the remainder of the input after the match. -/

def tailAfterLastNl (run : List Char) : Option (List Char) :=
  if '\n' ∈ run then
    some (List.reverse (run.reverse.takeWhile (fun c => c ≠ '\n')))
  else none

def matchSep : List Char → Option (List Char)
  | '\n' :: r =>
    let r1 := dropWs r
    if (r1.takeWhile (fun c => c = '_')).length < 35 then none
    else
      let r2 := r1.dropWhile (fun c => c = '_')
      match tailAfterLastNl (r2.takeWhile isWs) with
      | some b => some (b ++ r2.dropWhile isWs)
      | none => none
  | _ => none

/-- Worker for the split.  `fuel` starts at the input length; every step
consumes at least one character (a separator match consumes at least 37),
so the fuel-exhausted branch is never taken. -/
def splitBlocksGo (fuel : Nat) (acc rest : List Char) : List (List Char) :=
  match fuel with
  | 0 => [acc.reverse ++ rest]
  | fuel + 1 =>
    match rest with
    | [] => [acc.reverse]
    | c :: r =>
      match matchSep (c :: r) with
      | some rem => acc.reverse :: splitBlocksGo fuel [] rem
      | none => splitBlocksGo fuel (c :: acc) r

def splitBlocksRaw (raw : List Char) : List (List Char) :=
  splitBlocksGo raw.length [] raw

/-! ## Lines of a block: `block.split(/\r?\n/)` then trim and drop empties -/

def splitNewlines : List Char → List (List Char)
  | [] => [[]]
  | '\r' :: '\n' :: r => [] :: splitNewlines r
  | '\n' :: r => [] :: splitNewlines r
  | c :: r =>
    match splitNewlines r with
    | [] => [[c]]
    | l :: ls => (c :: l) :: ls

def blockLines (block : List Char) : List (List Char) :=
  ((splitNewlines block).map trimWs).filter (fun l => decide (0 < l.length))

/-! ## Question-line pattern `^\d+\s*\.` and the derived extractions -/

def headIsDot : List Char → Bool
  | '.' :: _ => true
  | _ => false

/-- Test of `/^\d+\s*\./`. -/
def matchesQPat (l : List Char) : Bool :=
  decide ((l.takeWhile Char.isDigit).length ≠ 0) &&
    headIsDot (dropWs (l.dropWhile Char.isDigit))

/-- The id captured by `questionLine.match(/^(\d+)\s*\./)`. -/
def extractId (l : List Char) : Option Nat :=
  if matchesQPat l then some (digitsToNat (l.takeWhile Char.isDigit)) else none

/-- After a run of ws, an optional period, then more ws: the part of
`/^(\d+)\s*\.?\s*/` that follows the digits. -/
def dropDotWs : List Char → List Char
  | '.' :: t => dropWs t
  | r => r

/-- `questionLine.replace(/^(\d+)\s*\.?\s*/, '')`: a no-op when the line does
not begin with a digit, otherwise digits, whitespace, an optional period and
more whitespace are removed. -/
def stripIdMark (l : List Char) : List Char :=
  match l.takeWhile Char.isDigit with
  | [] => l
  | _ :: _ => dropDotWs (dropWs (l.dropWhile Char.isDigit))

/-! ## Options -/

structure AnswerOption where
  id : Nat
  text : List Char
  isCorrect : Bool
deriving DecidableEq

structure Question where
  id : Nat
  text : List Char
  options : List AnswerOption
deriving DecidableEq

/-- Test of `/^\*\s*/` (equivalent to: the line starts with `*`). -/
def startsStar : List Char → Bool
  | '*' :: _ => true
  | _ => false

/-- `line.replace(/^\*\s*/, '')`. -/
def stripStar : List Char → List Char
  | '*' :: t => dropWs t
  | l => l

/-- `optionLines.map((line, idx) => ({id: idx, text, isCorrect}))`. -/
def mkOptions : Nat → List (List Char) → List AnswerOption
  | _, [] => []
  | i, l :: r => { id := i, text := stripStar l, isCorrect := startsStar l } :: mkOptions (i + 1) r

/-! ## Locating the question line

The source's `while` loop increments `questionLineIndex` from 0 while
`questionLineIndex < Math.min(3, lines.length)` and the line does not match
`/^\d+\s*\./`; with at least 4 lines it therefore stops at the first
matching index among 0, 1, 2, or at 3.  The loop is unrolled below. -/

def stepQIdx (lines : List (List Char)) (i : Nat) : Bool :=
  decide (i < min 3 lines.length) && !(matchesQPat (lines.getD i []))

def findQIdx (lines : List (List Char)) : Nat :=
  if stepQIdx lines 0 then
    if stepQIdx lines 1 then
      if stepQIdx lines 2 then 3 else 2
    else 1
  else 0

/-- `lines.slice(questionLineIndex + 1).filter(l => l.length > 0).slice(0, 3)` -/
def optionLinesOf (block : List Char) : List (List Char) :=
  List.take 3
    (((blockLines block).drop (findQIdx (blockLines block) + 1)).filter
      (fun l => decide (0 < l.length)))

/-- One iteration of the block loop of `parseQuestions`: `none` corresponds
to `continue` (the block is discarded). The `lines.length ≤ questionLineIndex`
test mirrors the source's `questionLineIndex >= lines.length` guard. -/
def parseBlock (block : List Char) : Option Question :=
  if (blockLines block).length < 4 then none
  else if (blockLines block).length ≤ findQIdx (blockLines block) then none
  else
    match extractId ((blockLines block).getD (findQIdx (blockLines block)) []) with
    | none => none
    | some qid =>
      if (optionLinesOf block).length ≠ 3 then none
      else
        some { id := qid,
               text := trimWs (stripIdMark ((blockLines block).getD (findQIdx (blockLines block)) [])),
               options := mkOptions 0 (optionLinesOf block) }

/-- The question sequence before deduplication: blocks are split out,
trimmed, empty blocks dropped, and each remaining block contributes at most
one question. -/
def preDedup (raw : List Char) : List Question :=
  (((splitBlocksRaw raw).map trimWs).filter (fun b => decide (0 < b.length))).filterMap parseBlock

/-- The final dedup loop: `seen` is the set of ids already emitted. -/
def dedupeGo : List Nat → List Question → List Question
  | _, [] => []
  | seen, q :: r => if q.id ∈ seen then dedupeGo seen r else q :: dedupeGo (q.id :: seen) r

def dedupeById (qs : List Question) : List Question :=
  dedupeGo [] qs

def parseQuestions (raw : List Char) : List Question :=
  dedupeById (preDedup raw)

/-! ## Session engine state -/

structure SessionQuestionState where
  questionId : Nat
  consecutiveCorrect : Nat
  isExcluded : Bool
deriving DecidableEq

structure StatsState where
  totalAnswers : Nat
  correctAnswers : Nat
deriving DecidableEq

/-- `SessionState` plus the stats entry and the component-local
`hasAnswered` flag (which gates a second answer to the same presentation;
it is reset by the effect that fires when `currentQuestionId` changes). -/
structure EngineState where
  questionStates : List (Nat × SessionQuestionState)
  currentQuestionId : Option Nat
  stats : StatsState
  hasAnswered : Bool
deriving DecidableEq

/-- Lookup in the `Record<number, SessionQuestionState>` object. -/
def lookupQS : List (Nat × SessionQuestionState) → Nat → Option SessionQuestionState
  | [], _ => none
  | p :: r, k => if p.1 = k then some p.2 else lookupQS r k

/-- `{...states, [k]: v}`: replace the existing entry or add a new one. -/
def setQS (m : List (Nat × SessionQuestionState)) (k : Nat) (v : SessionQuestionState) :
    List (Nat × SessionQuestionState) :=
  match lookupQS m k with
  | some _ => m.map (fun p => if p.1 = k then (k, v) else p)
  | none => m ++ [(k, v)]

/-- `Object.values(session.questionStates).filter(qs => !qs.isExcluded).length` -/
def activeCount (m : List (Nat × SessionQuestionState)) : Nat :=
  (m.filter (fun p => !p.2.isExcluded)).length

/-- `states[q.id]?.isExcluded` coerced to a boolean (`undefined` is falsy). -/
def isExcludedIn (m : List (Nat × SessionQuestionState)) (k : Nat) : Bool :=
  match lookupQS m k with
  | some qs => qs.isExcluded
  | none => false

/-- `questions.filter(q => !states[q.id]?.isExcluded)` -/
def activePool (bank : List Question) (m : List (Nat × SessionQuestionState)) : List Question :=
  bank.filter (fun q => !(isExcludedIn m q.id))

/-- `pickNextQuestionId`: `null` when the candidate pool is empty, otherwise
the id of the candidate at `Math.floor(Math.random() * candidates.length)`.
The random draw is modelled by the parameter `r`; `r % length` ranges over
exactly the indices the source can produce. -/
def pickNextQuestionId (bank : List Question) (m : List (Nat × SessionQuestionState))
    (r : Nat) : Option Nat :=
  if h : (activePool bank m).length = 0 then none
  else
    some (((activePool bank m).get
      ⟨r % (activePool bank m).length, Nat.mod_lt r (Nat.pos_of_ne_zero h)⟩).id)

/-- `allQuestions.find(q => q.id === session.currentQuestionId) || null` -/
def currentQuestion (bank : List Question) (st : EngineState) : Option Question :=
  match st.currentQuestionId with
  | none => none
  | some cid => bank.find? (fun q => decide (q.id = cid))

/-- `displayedOptions[idx]?.isCorrect === true` -/
def optAt : List AnswerOption → Nat → Option AnswerOption
  | [], _ => none
  | o :: _, 0 => some o
  | _ :: r, n + 1 => optAt r n

def chosenIsCorrect (displayed : List AnswerOption) (idx : Nat) : Bool :=
  match optAt displayed idx with
  | some o => o.isCorrect
  | none => false

/-- `handleAnswer(idx)`.  `displayed` is the shuffled option list of the
current question as rendered.  The result is `none` exactly when the source
throws: with no progress record for the current question a correct answer
evaluates `qs.consecutiveCorrect` on `undefined` (a `TypeError`); on the
incorrect path the source builds a fresh record via the spread of
`undefined` (its `questionId` field, never read anywhere, is modelled as the
question's id). -/
def handleAnswer (bank : List Question) (displayed : List AnswerOption) (idx : Nat)
    (st : EngineState) : Option EngineState :=
  if st.hasAnswered then some st
  else
    match currentQuestion bank st with
    | none => some st
    | some q =>
      let isCorrect := chosenIsCorrect displayed idx
      let stats' : StatsState :=
        { totalAnswers := st.stats.totalAnswers + 1,
          correctAnswers := st.stats.correctAnswers + (if isCorrect then 1 else 0) }
      match lookupQS st.questionStates q.id with
      | some qs =>
        some { st with
                 stats := stats',
                 questionStates := setQS st.questionStates q.id
                   { questionId := qs.questionId,
                     consecutiveCorrect := if isCorrect then qs.consecutiveCorrect + 1 else 0,
                     isExcluded := isCorrect &&
                       decide (5 ≤ (if isCorrect then qs.consecutiveCorrect + 1 else 0)) },
                 hasAnswered := true }
      | none =>
        if isCorrect then none
        else
          some { st with
                   stats := stats',
                   questionStates := setQS st.questionStates q.id
                     { questionId := q.id, consecutiveCorrect := 0, isExcluded := false },
                   hasAnswered := true }

/-- `handleNext`: no-op when no current question resolves in the bank;
otherwise `currentQuestionId` is re-picked.  The `hasAnswered` reset models
the effect keyed on `session.currentQuestionId`, which fires only when the
id actually changes. -/
def handleNext (bank : List Question) (r : Nat) (st : EngineState) : EngineState :=
  match currentQuestion bank st with
  | none => st
  | some _ =>
    { st with
        currentQuestionId := pickNextQuestionId bank st.questionStates r,
        hasAnswered :=
          if pickNextQuestionId bank st.questionStates r = st.currentQuestionId then
            st.hasAnswered
          else false }

/-- Truthiness of `session.currentQuestionId` (both `null` and `0` are falsy). -/
def jsTruthyId : Option Nat → Bool
  | none => false
  | some 0 => false
  | some _ => true

/-- The start button handler together with its render-time guard: the
button (`Начать тест` / `Новый тест`) is reachable exactly when
`!session.currentQuestionId || isFinished`, and then re-picks the current
question; in every other state starting is impossible, i.e. a no-op. -/
def handleStart (bank : List Question) (r : Nat) (st : EngineState) : EngineState :=
  if jsTruthyId st.currentQuestionId = false ∨ activeCount st.questionStates = 0 then
    { st with
        currentQuestionId := pickNextQuestionId bank st.questionStates r,
        hasAnswered :=
          if pickNextQuestionId bank st.questionStates r = st.currentQuestionId then
            st.hasAnswered
          else false }
  else st

/-- `handleReset`: storage is cleared and session and stats are replaced by
the all-empty values.  As in `handleNext`, `hasAnswered` resets only if the
current question id actually changed (to `null`). -/
def handleReset (st : EngineState) : EngineState :=
  { questionStates := [],
    currentQuestionId := none,
    stats := { totalAnswers := 0, correctAnswers := 0 },
    hasAnswered := if (none : Option Nat) = st.currentQuestionId then st.hasAnswered else false }

/-- The loop body of the progress-initialisation effect: every bank
question without a record gets a fresh one appended. -/
def initProgress (bank : List Question) (m : List (Nat × SessionQuestionState)) :
    List (Nat × SessionQuestionState) :=
  match bank with
  | [] => m
  | q :: r =>
    initProgress r
      (if (lookupQS m q.id).isSome then m
       else m ++ [(q.id, { questionId := q.id, consecutiveCorrect := 0, isExcluded := false })])

/-- The initialisation effect (guarded by `allQuestions.length === 0`). -/
def handleInit (bank : List Question) (st : EngineState) : EngineState :=
  if bank.length = 0 then st
  else { st with questionStates := initProgress bank st.questionStates }

/-- The state before any persisted data exists. -/
def initialSt : EngineState :=
  { questionStates := [],
    currentQuestionId := none,
    stats := { totalAnswers := 0, correctAnswers := 0 },
    hasAnswered := false }

/-! ## The transition system -/

/-- Engine operations other than reset. -/
inductive NRStep (bank : List Question) (st : EngineState) : EngineState → Prop
  | init : NRStep bank st (handleInit bank st)
  | start (r : Nat) : NRStep bank st (handleStart bank r st)
  | next (r : Nat) : NRStep bank st (handleNext bank r st)
  | answer (displayed : List AnswerOption) (idx : Nat) (st' : EngineState) :
      handleAnswer bank displayed idx st = some st' → NRStep bank st st'

/-- All engine operations. -/
inductive EStep (bank : List Question) (st : EngineState) : EngineState → Prop
  | nr (st' : EngineState) : NRStep bank st st' → EStep bank st st'
  | reset : EStep bank st (handleReset st)

/-- States reachable from the fresh initial state by engine operations. -/
def Reachable (bank : List Question) (st : EngineState) : Prop :=
  Relation.ReflTransGen (fun a b => EStep bank a b) initialSt st

/-! ## Lemmas about the progress map -/

theorem lookupQS_cons (p : Nat × SessionQuestionState)
    (r : List (Nat × SessionQuestionState)) (k : Nat) :
    lookupQS (p :: r) k = if p.1 = k then some p.2 else lookupQS r k := rfl

theorem lookupQS_mem {m : List (Nat × SessionQuestionState)} {k : Nat}
    {v : SessionQuestionState} (h : lookupQS m k = some v) : (k, v) ∈ m := by
  induction m with
  | nil => simp [lookupQS] at h
  | cons p r ih =>
    by_cases hk : p.1 = k
    · simp only [lookupQS, hk, if_pos] at h
      subst hk
      cases h
      exact List.mem_cons_self _ _
    · simp only [lookupQS, hk, if_neg, if_false] at h
      exact List.mem_cons_of_mem _ (ih h)

theorem lookupQS_append_some {m l : List (Nat × SessionQuestionState)} {k : Nat}
    {v : SessionQuestionState} (h : lookupQS m k = some v) :
    lookupQS (m ++ l) k = some v := by
  induction m with
  | nil => simp [lookupQS] at h
  | cons p r ih =>
    by_cases hk : p.1 = k
    · simp only [lookupQS, hk, if_pos] at h ⊢
      exact h
    · simp only [lookupQS, hk, if_neg, if_false] at h ⊢
      exact ih h

theorem lookupQS_append_none {m l : List (Nat × SessionQuestionState)} {k : Nat}
    (h : lookupQS m k = none) : lookupQS (m ++ l) k = lookupQS l k := by
  induction m with
  | nil => rfl
  | cons p r ih =>
    by_cases hk : p.1 = k
    · simp [lookupQS, hk] at h
    · simp only [lookupQS, hk, if_neg, if_false] at h ⊢
      exact ih h

theorem lookupQS_map_replace_self {m : List (Nat × SessionQuestionState)} {k : Nat}
    (v : SessionQuestionState) {w : SessionQuestionState} (hm : lookupQS m k = some w) :
    lookupQS (m.map (fun p => if p.1 = k then (k, v) else p)) k = some v := by
  induction m with
  | nil => simp [lookupQS] at hm
  | cons p r ih =>
    by_cases hk : p.1 = k
    · simp [List.map_cons, if_pos hk, lookupQS_cons]
    · rw [lookupQS_cons, if_neg hk] at hm
      rw [List.map_cons, if_neg hk, lookupQS_cons, if_neg hk]
      exact ih hm

theorem lookupQS_map_replace_ne {m : List (Nat × SessionQuestionState)} {k k' : Nat}
    (v : SessionQuestionState) (hne : k' ≠ k) :
    lookupQS (m.map (fun p => if p.1 = k then (k, v) else p)) k' = lookupQS m k' := by
  induction m with
  | nil => rfl
  | cons p r ih =>
    by_cases hk : p.1 = k
    · have h1 : ¬(k = k') := fun h => hne h.symm
      have h2 : ¬(p.1 = k') := by rw [hk]; exact h1
      rw [List.map_cons, if_pos hk, lookupQS_cons, lookupQS_cons, if_neg h1, if_neg h2]
      exact ih
    · rw [List.map_cons, if_neg hk, lookupQS_cons, lookupQS_cons]
      by_cases hk' : p.1 = k'
      · rw [if_pos hk', if_pos hk']
      · rw [if_neg hk', if_neg hk']
        exact ih

theorem lookupQS_setQS_self (m : List (Nat × SessionQuestionState)) (k : Nat)
    (v : SessionQuestionState) : lookupQS (setQS m k v) k = some v := by
  unfold setQS
  cases hm : lookupQS m k with
  | none =>
    show lookupQS (m ++ [(k, v)]) k = some v
    rw [lookupQS_append_none hm]
    simp [lookupQS]
  | some w => exact lookupQS_map_replace_self v hm

theorem lookupQS_setQS_ne (m : List (Nat × SessionQuestionState)) (k k' : Nat)
    (v : SessionQuestionState) (hne : k' ≠ k) :
    lookupQS (setQS m k v) k' = lookupQS m k' := by
  unfold setQS
  cases hm : lookupQS m k with
  | none =>
    show lookupQS (m ++ [(k, v)]) k' = lookupQS m k'
    cases h' : lookupQS m k' with
    | some w => rw [lookupQS_append_some h']
    | none =>
      have h2 : lookupQS ([(k, v)] : List (Nat × SessionQuestionState)) k' = none := by
        rw [lookupQS_cons, if_neg (Ne.symm hne)]
        rfl
      rw [lookupQS_append_none h', h2]
  | some w => exact lookupQS_map_replace_ne v hne

theorem setQS_mem {m : List (Nat × SessionQuestionState)} {k : Nat}
    {v : SessionQuestionState} {p : Nat × SessionQuestionState}
    (hp : p ∈ setQS m k v) : p = (k, v) ∨ p ∈ m := by
  unfold setQS at hp
  cases hm : lookupQS m k with
  | none =>
    rw [hm] at hp
    rcases List.mem_append.mp hp with h | h
    · exact Or.inr h
    · simp at h
      exact Or.inl h
  | some w =>
    rw [hm] at hp
    rcases List.mem_map.mp hp with ⟨q, hq, hqe⟩
    by_cases hk : q.1 = k
    · rw [if_pos hk] at hqe
      exact Or.inl hqe.symm
    · rw [if_neg hk] at hqe
      exact Or.inr (hqe ▸ hq)

/-! ## Lemmas about `initProgress` -/

theorem initProgress_lookup_some {bank : List Question}
    {m : List (Nat × SessionQuestionState)} {k : Nat} {v : SessionQuestionState}
    (h : lookupQS m k = some v) : lookupQS (initProgress bank m) k = some v := by
  induction bank generalizing m with
  | nil => exact h
  | cons q r ih =>
    unfold initProgress
    by_cases hq : (lookupQS m q.id).isSome
    · rw [if_pos hq]
      exact ih h
    · rw [if_neg hq]
      exact ih (lookupQS_append_some h)

theorem initProgress_lookup {bank : List Question}
    {m : List (Nat × SessionQuestionState)} {k : Nat} {v : SessionQuestionState}
    (h : lookupQS (initProgress bank m) k = some v) :
    lookupQS m k = some v ∨ (v.consecutiveCorrect = 0 ∧ v.isExcluded = false) := by
  induction bank generalizing m with
  | nil => exact Or.inl h
  | cons q r ih =>
    unfold initProgress at h
    by_cases hq : (lookupQS m q.id).isSome
    · rw [if_pos hq] at h
      exact ih h
    · rw [if_neg hq] at h
      rcases ih h with h' | h'
      · cases hm : lookupQS m k with
        | some w =>
          rw [lookupQS_append_some hm] at h'
          exact Or.inl h'
        | none =>
          rw [lookupQS_append_none hm, lookupQS_cons] at h'
          by_cases hk : q.id = k
          · rw [if_pos hk] at h'
            cases h'
            exact Or.inr ⟨rfl, rfl⟩
          · rw [if_neg hk] at h'
            cases h'
      · exact Or.inr h'

theorem initProgress_mem {bank : List Question}
    {m : List (Nat × SessionQuestionState)} {p : Nat × SessionQuestionState}
    (hp : p ∈ initProgress bank m) :
    p ∈ m ∨ (p.2.consecutiveCorrect = 0 ∧ p.2.isExcluded = false) := by
  induction bank generalizing m with
  | nil => exact Or.inl hp
  | cons q r ih =>
    unfold initProgress at hp
    by_cases hq : (lookupQS m q.id).isSome
    · rw [if_pos hq] at hp
      exact ih hp
    · rw [if_neg hq] at hp
      rcases ih hp with h' | h'
      · rcases List.mem_append.mp h' with h | h
        · exact Or.inl h
        · simp at h
          rw [h]
          exact Or.inr ⟨rfl, rfl⟩
      · exact Or.inr h'

/-! ## Lemmas about `pickNextQuestionId` -/

theorem pickNext_mem {bank : List Question} {m : List (Nat × SessionQuestionState)}
    {r : Nat} {id : Nat} (h : pickNextQuestionId bank m r = some id) :
    ∃ q ∈ activePool bank m, q.id = id := by
  unfold pickNextQuestionId at h
  split at h
  · cases h
  · rename_i hlen
    exact ⟨_, List.get_mem (activePool bank m) (r % (activePool bank m).length)
      (Nat.mod_lt r (Nat.pos_of_ne_zero hlen)), Option.some.inj h⟩

theorem pickNext_not_excluded {bank : List Question}
    {m : List (Nat × SessionQuestionState)} {r : Nat} {id : Nat}
    (h : pickNextQuestionId bank m r = some id) {qs : SessionQuestionState}
    (hl : lookupQS m id = some qs) : qs.isExcluded = false := by
  rcases pickNext_mem h with ⟨q, hq, hid⟩
  have hpred := (List.mem_filter.mp hq).2
  rw [hid] at hpred
  unfold isExcludedIn at hpred
  rw [hl] at hpred
  simpa using hpred

theorem pickNext_none_iff {bank : List Question}
    {m : List (Nat × SessionQuestionState)} {r : Nat} :
    pickNextQuestionId bank m r = none ↔ activePool bank m = [] := by
  constructor
  · intro h
    unfold pickNextQuestionId at h
    split at h
    · exact List.length_eq_zero.mp (by assumption)
    · cases h
  · intro h
    have hz : (activePool bank m).length = 0 := by rw [h]; rfl
    unfold pickNextQuestionId
    rw [dif_pos hz]

/-! ## Unfolding lemmas for the engine handlers -/

theorem currentQuestion_id {bank : List Question} {st : EngineState} {q : Question}
    (h : currentQuestion bank st = some q) : st.currentQuestionId = some q.id := by
  unfold currentQuestion at h
  cases hc : st.currentQuestionId with
  | none => rw [hc] at h; cases h
  | some cid =>
    rw [hc] at h
    have := List.find?_some h
    have : q.id = cid := by simpa using this
    rw [this]

theorem handleAnswer_answered {bank : List Question} {displayed : List AnswerOption}
    {idx : Nat} {st : EngineState} (h : st.hasAnswered = true) :
    handleAnswer bank displayed idx st = some st := by
  unfold handleAnswer
  rw [h]
  rfl

theorem handleAnswer_nocurrent {bank : List Question} {displayed : List AnswerOption}
    {idx : Nat} {st : EngineState} (h : currentQuestion bank st = none) :
    handleAnswer bank displayed idx st = some st := by
  unfold handleAnswer
  cases ha : st.hasAnswered
  · rw [h]
    rfl
  · rfl

theorem handleAnswer_found {bank : List Question} {displayed : List AnswerOption}
    {idx : Nat} {st : EngineState} {q : Question} {qs : SessionQuestionState}
    (hA : st.hasAnswered = false) (hq : currentQuestion bank st = some q)
    (hl : lookupQS st.questionStates q.id = some qs) :
    handleAnswer bank displayed idx st = some
      { st with
          stats :=
            { totalAnswers := st.stats.totalAnswers + 1,
              correctAnswers := st.stats.correctAnswers +
                (if chosenIsCorrect displayed idx then 1 else 0) },
          questionStates := setQS st.questionStates q.id
            { questionId := qs.questionId,
              consecutiveCorrect :=
                if chosenIsCorrect displayed idx then qs.consecutiveCorrect + 1 else 0,
              isExcluded := chosenIsCorrect displayed idx &&
                decide (5 ≤ (if chosenIsCorrect displayed idx then qs.consecutiveCorrect + 1 else 0)) },
          hasAnswered := true } := by
  simp only [handleAnswer, hA, hq, hl, Bool.false_eq_true, if_false]

theorem handleAnswer_missing_incorrect {bank : List Question}
    {displayed : List AnswerOption} {idx : Nat} {st : EngineState} {q : Question}
    (hA : st.hasAnswered = false) (hq : currentQuestion bank st = some q)
    (hl : lookupQS st.questionStates q.id = none)
    (hc : chosenIsCorrect displayed idx = false) :
    handleAnswer bank displayed idx st = some
      { st with
          stats :=
            { totalAnswers := st.stats.totalAnswers + 1,
              correctAnswers := st.stats.correctAnswers },
          questionStates := setQS st.questionStates q.id
            { questionId := q.id, consecutiveCorrect := 0, isExcluded := false },
          hasAnswered := true } := by
  simp only [handleAnswer, hA, hq, hl, Bool.false_eq_true, if_false, hc, Nat.add_zero]

theorem handleAnswer_missing_correct {bank : List Question}
    {displayed : List AnswerOption} {idx : Nat} {st : EngineState} {q : Question}
    (hA : st.hasAnswered = false) (hq : currentQuestion bank st = some q)
    (hl : lookupQS st.questionStates q.id = none)
    (hc : chosenIsCorrect displayed idx = true) :
    handleAnswer bank displayed idx st = none := by
  simp only [handleAnswer, hA, hq, hl, Bool.false_eq_true, if_false, hc, if_true]

theorem handleNext_nocurrent {bank : List Question} {r : Nat} {st : EngineState}
    (h : currentQuestion bank st = none) : handleNext bank r st = st := by
  unfold handleNext
  rw [h]

theorem handleNext_current {bank : List Question} {r : Nat} {st : EngineState}
    {q : Question} (h : currentQuestion bank st = some q) :
    handleNext bank r st =
      { st with
          currentQuestionId := pickNextQuestionId bank st.questionStates r,
          hasAnswered :=
            if pickNextQuestionId bank st.questionStates r = st.currentQuestionId then
              st.hasAnswered
            else false } := by
  unfold handleNext
  rw [h]

theorem handleStart_noop {bank : List Question} {r : Nat} {st : EngineState}
    (h : ¬(jsTruthyId st.currentQuestionId = false ∨ activeCount st.questionStates = 0)) :
    handleStart bank r st = st := by
  unfold handleStart
  rw [if_neg h]

/-! ## The session invariant

`recordsOk` is the mastery-counter invariant; `currentOk` states that the
current question can only hold an excluded record after it has been
answered in its current presentation (which is what makes exclusion
permanent: `handleAnswer` is a no-op once `hasAnswered` is set, and every
newly picked current question is non-excluded). -/

def recordsOk (m : List (Nat × SessionQuestionState)) : Prop :=
  ∀ p ∈ m, p.2.consecutiveCorrect ≤ 5 ∧ (p.2.consecutiveCorrect = 5 → p.2.isExcluded = true)

def currentOk (st : EngineState) : Prop :=
  ∀ cid qs, st.currentQuestionId = some cid →
    lookupQS st.questionStates cid = some qs →
    qs.isExcluded = true → st.hasAnswered = true

def SessionInv (st : EngineState) : Prop :=
  recordsOk st.questionStates ∧ currentOk st

theorem answered_record_ok (c : Bool) (qs : SessionQuestionState)
    (hcc : qs.consecutiveCorrect ≤ 4) :
    (if c then qs.consecutiveCorrect + 1 else 0) ≤ 5 ∧
    ((if c then qs.consecutiveCorrect + 1 else 0) = 5 →
      (c && decide (5 ≤ (if c then qs.consecutiveCorrect + 1 else 0))) = true) := by
  cases c <;> simp <;> omega

theorem inv_handleInit {bank : List Question} {st : EngineState} (h : SessionInv st) :
    SessionInv (handleInit bank st) := by
  obtain ⟨h1, h2⟩ := h
  unfold handleInit
  split
  · exact ⟨h1, h2⟩
  · constructor
    · intro p hp
      rcases initProgress_mem hp with hm | ⟨hc, he⟩
      · exact h1 p hm
      · rw [hc, he]
        exact ⟨by omega, by simp⟩
    · intro cid qs hc hl he
      rcases initProgress_lookup hl with hl' | ⟨_, hex⟩
      · exact h2 cid qs hc hl' he
      · rw [hex] at he
        cases he

theorem inv_handleStart {bank : List Question} {r : Nat} {st : EngineState} (h : SessionInv st) :
    SessionInv (handleStart bank r st) := by
  obtain ⟨h1, h2⟩ := h
  unfold handleStart
  split
  · refine ⟨h1, ?_⟩
    intro cid qs hc hl he
    have hex := pickNext_not_excluded hc hl
    rw [he] at hex
    cases hex
  · exact ⟨h1, h2⟩

theorem inv_handleNext {bank : List Question} {r : Nat} {st : EngineState} (h : SessionInv st) :
    SessionInv (handleNext bank r st) := by
  obtain ⟨h1, h2⟩ := h
  unfold handleNext
  cases hcq : currentQuestion bank st with
  | none => exact ⟨h1, h2⟩
  | some q =>
    refine ⟨h1, ?_⟩
    intro cid qs hc hl he
    have hex := pickNext_not_excluded hc hl
    rw [he] at hex
    cases hex

theorem inv_handleReset {st : EngineState} : SessionInv (handleReset st) := by
  constructor
  · intro p hp
    cases hp
  · intro cid qs hc hl he
    cases hc

theorem inv_handleAnswer {bank : List Question} {displayed : List AnswerOption}
    {idx : Nat} {st st' : EngineState}
    (hstep : handleAnswer bank displayed idx st = some st') (h : SessionInv st) : SessionInv st' := by
  obtain ⟨h1, h2⟩ := h
  cases hA : st.hasAnswered with
  | true =>
    rw [handleAnswer_answered hA] at hstep
    cases hstep
    exact ⟨h1, h2⟩
  | false =>
    cases hcq : currentQuestion bank st with
    | none =>
      rw [handleAnswer_nocurrent hcq] at hstep
      cases hstep
      exact ⟨h1, h2⟩
    | some q =>
      cases hl : lookupQS st.questionStates q.id with
      | some qs =>
        rw [handleAnswer_found hA hcq hl] at hstep
        cases hstep
        have hqs : qs.consecutiveCorrect ≤ 5 ∧
            (qs.consecutiveCorrect = 5 → qs.isExcluded = true) := h1 _ (lookupQS_mem hl)
        have hnex : qs.isExcluded = false := by
          cases hex : qs.isExcluded
          · rfl
          · have hh := h2 q.id qs (currentQuestion_id hcq) hl hex
            rw [hA] at hh
            cases hh
        have hcc : qs.consecutiveCorrect ≤ 4 := by
          rcases hqs with ⟨hle, h5⟩
          rcases Nat.lt_or_ge qs.consecutiveCorrect 5 with hlt | hge
          · omega
          · have h5' : qs.consecutiveCorrect = 5 := by omega
            rw [h5 h5'] at hnex
            cases hnex
        constructor
        · intro p hp
          rcases setQS_mem hp with hpv | hpm
          · rw [hpv]
            exact answered_record_ok (chosenIsCorrect displayed idx) qs hcc
          · exact h1 p hpm
        · intro cid qs' hc hl' he
          rfl
      | none =>
        cases hcor : chosenIsCorrect displayed idx with
        | true =>
          rw [handleAnswer_missing_correct hA hcq hl hcor] at hstep
          cases hstep
        | false =>
          rw [handleAnswer_missing_incorrect hA hcq hl hcor] at hstep
          cases hstep
          constructor
          · intro p hp
            rcases setQS_mem hp with hpv | hpm
            · rw [hpv]
              exact ⟨by simp, by simp⟩
            · exact h1 p hpm
          · intro cid qs' hc hl' he
            rfl

theorem inv_step {bank : List Question} {st st' : EngineState}
    (h : EStep bank st st') (hinv : SessionInv st) : SessionInv st' := by
  cases h with
  | nr _ hnr =>
    cases hnr with
    | init => exact inv_handleInit hinv
    | start r => exact inv_handleStart hinv
    | next r => exact inv_handleNext hinv
    | answer displayed idx st2 hstep => exact inv_handleAnswer hstep hinv
  | reset => exact inv_handleReset

theorem inv_initialSt : SessionInv initialSt := by
  constructor
  · intro p hp
    cases hp
  · intro cid qs hc hl he
    cases hc

theorem reachable_inv {bank : List Question} {st : EngineState}
    (h : Reachable bank st) : SessionInv st := by
  induction h with
  | refl => exact inv_initialSt
  | tail hsteps hstep ih => exact inv_step hstep ih

/-- Exclusion is monotone under every non-reset operation (given the
invariant). -/
theorem excluded_mono {bank : List Question} {st st' : EngineState}
    (hinv : SessionInv st) (h : NRStep bank st st') {k : Nat} {qs : SessionQuestionState}
    (hl : lookupQS st.questionStates k = some qs) (he : qs.isExcluded = true) :
    ∃ qs', lookupQS st'.questionStates k = some qs' ∧ qs'.isExcluded = true := by
  cases h with
  | init =>
    unfold handleInit
    split
    · exact ⟨qs, hl, he⟩
    · exact ⟨qs, initProgress_lookup_some hl, he⟩
  | start r =>
    unfold handleStart
    split
    · exact ⟨qs, hl, he⟩
    · exact ⟨qs, hl, he⟩
  | next r =>
    unfold handleNext
    cases hcq : currentQuestion bank st with
    | none => exact ⟨qs, hl, he⟩
    | some q => exact ⟨qs, hl, he⟩
  | answer displayed idx st2 hstep =>
    cases hA : st.hasAnswered with
    | true =>
      rw [handleAnswer_answered hA] at hstep
      cases hstep
      exact ⟨qs, hl, he⟩
    | false =>
      cases hcq : currentQuestion bank st with
      | none =>
        rw [handleAnswer_nocurrent hcq] at hstep
        cases hstep
        exact ⟨qs, hl, he⟩
      | some q =>
        by_cases hk : k = q.id
        · subst hk
          have hh := hinv.2 q.id qs (currentQuestion_id hcq) hl he
          rw [hA] at hh
          cases hh
        · cases hlq : lookupQS st.questionStates q.id with
          | some qs0 =>
            rw [handleAnswer_found hA hcq hlq] at hstep
            cases hstep
            exact ⟨qs, by rw [lookupQS_setQS_ne _ _ _ _ hk]; exact hl, he⟩
          | none =>
            cases hcor : chosenIsCorrect displayed idx with
            | true =>
              rw [handleAnswer_missing_correct hA hcq hlq hcor] at hstep
              cases hstep
            | false =>
              rw [handleAnswer_missing_incorrect hA hcq hlq hcor] at hstep
              cases hstep
              exact ⟨qs, by rw [lookupQS_setQS_ne _ _ _ _ hk]; exact hl, he⟩

theorem optAt_mem {l : List AnswerOption} {n : Nat} {o : AnswerOption}
    (h : optAt l n = some o) : o ∈ l := by
  induction l generalizing n with
  | nil => cases h
  | cons x r ih =>
    cases n with
    | zero =>
      cases h
      exact List.mem_cons_self _ _
    | succ n => exact List.mem_cons_of_mem _ (ih h)

/-! ## Concrete example data -/

def optsW : List AnswerOption :=
  [{ id := 0, text := "x".data, isCorrect := true },
   { id := 1, text := "y".data, isCorrect := false },
   { id := 2, text := "z".data, isCorrect := false }]

def qA : Question := { id := 1, text := "a".data, options := optsW }

def qB : Question := { id := 2, text := "b".data, options := optsW }

def bankW : List Question := [qA, qB]

def stW : EngineState :=
  { questionStates :=
      [(1, { questionId := 1, consecutiveCorrect := 0, isExcluded := false }),
       (2, { questionId := 2, consecutiveCorrect := 0, isExcluded := false })],
    currentQuestionId := some 1,
    stats := { totalAnswers := 0, correctAnswers := 0 },
    hasAnswered := false }

/-! ## Claim C4 -/

/-- C4: `pickNextQuestionId` returns `null` if and only if the active pool
(bank questions whose progress record is not excluded, a missing record
counting as active) is empty, and any returned id belongs to the active
pool. -/
theorem claim_c4_pick (bank : List Question) (m : List (Nat × SessionQuestionState))
    (r : Nat) :
    (pickNextQuestionId bank m r = none ↔ activePool bank m = []) ∧
    (∀ id, pickNextQuestionId bank m r = some id → ∃ q ∈ activePool bank m, q.id = id) :=
  ⟨pickNext_none_iff, fun _ h => pickNext_mem h⟩

theorem claim_c4_pick_witness : ∃ q ∈ activePool bankW [], q.id = 1 :=
  (claim_c4_pick bankW [] 0).2 1 rfl

/-! ## Claim C10 -/

/-- C10: a bank question with no progress record at all is treated as
active by `pickNextQuestionId`; in particular for a non-empty bank and the
empty progress map produced by `handleReset`, `pickNextQuestionId` returns
some bank id, never `null`. -/
theorem claim_c10_missing_active :
    (∀ (bank : List Question) (m : List (Nat × SessionQuestionState)) (q : Question),
        q ∈ bank → lookupQS m q.id = none → q ∈ activePool bank m) ∧
    (∀ (bank : List Question) (st : EngineState) (r : Nat), bank ≠ [] →
        ∃ id, pickNextQuestionId bank (handleReset st).questionStates r = some id ∧
          id ∈ bank.map (fun q => q.id)) := by
  constructor
  · intro bank m q hq hl
    refine List.mem_filter.mpr ⟨hq, ?_⟩
    unfold isExcludedIn
    rw [hl]
    rfl
  · intro bank st r hbank
    have hpool : activePool bank (handleReset st).questionStates = bank := by
      unfold activePool
      apply List.filter_eq_self.mpr
      intro q hq
      rfl
    cases hp : pickNextQuestionId bank (handleReset st).questionStates r with
    | none =>
      rw [pickNext_none_iff, hpool] at hp
      exact absurd hp hbank
    | some id =>
      rcases pickNext_mem hp with ⟨q, hq, hid⟩
      rw [hpool] at hq
      exact ⟨id, rfl, hid ▸ List.mem_map_of_mem _ hq⟩

theorem claim_c10_missing_active_witness :
    qA ∈ activePool bankW [] ∧
    ∃ id, pickNextQuestionId bankW (handleReset initialSt).questionStates 0 = some id ∧
      id ∈ bankW.map (fun q => q.id) :=
  ⟨claim_c10_missing_active.1 bankW [] qA (by decide) rfl,
   claim_c10_missing_active.2 bankW initialSt 0 (by decide)⟩

/-! ## Claim C2 -/

def exSt2 : EngineState :=
  { questionStates := [(1, { questionId := 1, consecutiveCorrect := 3, isExcluded := false }),
                       (2, { questionId := 2, consecutiveCorrect := 5, isExcluded := true })],
    currentQuestionId := some 1,
    stats := { totalAnswers := 7, correctAnswers := 4 },
    hasAnswered := true }

/-- C2 (evaluation at the failing input): after `handleReset` the progress
map is empty, so `activeCount` is `0` — not the bank size, because the
initialisation effect keyed on `allQuestions.length` does not re-run.
Stats and `currentQuestionId` are cleared as the claim states. -/
theorem claim_c2_reset_eval :
    handleReset exSt2 =
      { questionStates := [],
        currentQuestionId := none,
        stats := { totalAnswers := 0, correctAnswers := 0 },
        hasAnswered := false } ∧
    activeCount (handleReset exSt2).questionStates = 0 ∧
    bankW.length = 2 ∧
    activeCount (handleReset exSt2).questionStates ≠ bankW.length := by
  exact ⟨rfl, rfl, rfl, by decide⟩

/-! ## Claim C7 -/

/-- C7: `handleAnswer` leaves the progress record of every question other
than the current one unchanged and never changes `currentQuestionId`. -/
theorem claim_c7_frame {bank : List Question} {displayed : List AnswerOption}
    {idx : Nat} {st st' : EngineState} {q : Question} {k : Nat}
    (hq : currentQuestion bank st = some q) (hk : k ≠ q.id)
    (hstep : handleAnswer bank displayed idx st = some st') :
    st'.currentQuestionId = st.currentQuestionId ∧
    lookupQS st'.questionStates k = lookupQS st.questionStates k := by
  cases hA : st.hasAnswered with
  | true =>
    rw [handleAnswer_answered hA] at hstep
    cases hstep
    exact ⟨rfl, rfl⟩
  | false =>
    cases hl : lookupQS st.questionStates q.id with
    | some qs =>
      rw [handleAnswer_found hA hq hl] at hstep
      cases hstep
      exact ⟨rfl, lookupQS_setQS_ne _ _ _ _ hk⟩
    | none =>
      cases hcor : chosenIsCorrect displayed idx with
      | true =>
        rw [handleAnswer_missing_correct hA hq hl hcor] at hstep
        cases hstep
      | false =>
        rw [handleAnswer_missing_incorrect hA hq hl hcor] at hstep
        cases hstep
        exact ⟨rfl, lookupQS_setQS_ne _ _ _ _ hk⟩

theorem claim_c7_frame_witness :
    ((handleAnswer bankW optsW 0 stW).getD initialSt).currentQuestionId =
      stW.currentQuestionId ∧
    lookupQS ((handleAnswer bankW optsW 0 stW).getD initialSt).questionStates 2 =
      lookupQS stW.questionStates 2 :=
  @claim_c7_frame bankW optsW 0 stW ((handleAnswer bankW optsW 0 stW).getD initialSt) qA 2
    (by decide) (by decide) (by decide)

/-! ## Claim C8 -/

def stC8 : EngineState :=
  { questionStates := [(1, { questionId := 1, consecutiveCorrect := 5, isExcluded := true }),
                       (2, { questionId := 2, consecutiveCorrect := 5, isExcluded := true })],
    currentQuestionId := some 1,
    stats := { totalAnswers := 10, correctAnswers := 10 },
    hasAnswered := true }

/-- C8 counterexample: with a question current but the session finished
(`activeCount = 0`), the start control is reachable again and does change
the state (`currentQuestionId` is re-picked, here to `null`), so "starting
when a question is already current is a no-op" fails as stated. -/
theorem claim_c8_counterexample :
    stC8.currentQuestionId = some 1 ∧ handleStart bankW 0 stC8 ≠ stC8 :=
  ⟨rfl, by decide⟩

/-- C8 (amended): answering an already-answered presentation and advancing
with no current question are no-ops; starting is a no-op when a question
with nonzero id is current and the active count is nonzero (when the
session is finished, or the current id is the falsy `0`, the start control
is reachable again and re-picks the current question). -/
theorem claim_c8_amended (bank : List Question) :
    (∀ (displayed : List AnswerOption) (idx : Nat) (st : EngineState),
        st.hasAnswered = true → handleAnswer bank displayed idx st = some st) ∧
    (∀ (r : Nat) (st : EngineState), st.currentQuestionId = none →
        handleNext bank r st = st) ∧
    (∀ (r : Nat) (st : EngineState) (cid : Nat), st.currentQuestionId = some cid →
        cid ≠ 0 → activeCount st.questionStates ≠ 0 → handleStart bank r st = st) := by
  refine ⟨fun d i st h => handleAnswer_answered h,
          fun r st h => ?_,
          fun r st cid hc h0 hac => ?_⟩
  · apply handleNext_nocurrent
    unfold currentQuestion
    rw [h]
  · apply handleStart_noop
    push_neg
    refine ⟨?_, hac⟩
    rw [hc]
    cases cid with
    | zero => exact absurd rfl h0
    | succ n => simp [jsTruthyId]

theorem claim_c8_amended_witness :
    handleAnswer bankW optsW 0 stC8 = some stC8 ∧
    handleNext bankW 0 initialSt = initialSt ∧
    handleStart bankW 0 stW = stW := by
  obtain ⟨h1, h2, h3⟩ := claim_c8_amended bankW
  exact ⟨h1 optsW 0 stC8 rfl, h2 0 initialSt rfl, h3 0 stW 1 rfl (by decide) (by decide)⟩

/-! ## Claim C9 -/

/-- C9: for a question none of whose options is marked correct, answer
evaluation never fails (no `TypeError` path is reached), the answer is
scored incorrect — `correctAnswers` is unchanged — and the question's
`consecutiveCorrect` is reset to `0` without exclusion. -/
theorem claim_c9_all_incorrect {bank : List Question} {displayed : List AnswerOption}
    {idx : Nat} {st : EngineState} {q : Question}
    (hq : currentQuestion bank st = some q)
    (hlen : q.options.length = 3)
    (hall : ∀ o ∈ q.options, o.isCorrect = false)
    (hperm : displayed.Perm q.options)
    (hans : st.hasAnswered = false) :
    ∃ st', handleAnswer bank displayed idx st = some st' ∧
      st'.stats.correctAnswers = st.stats.correctAnswers ∧
      st'.stats.totalAnswers = st.stats.totalAnswers + 1 ∧
      ∃ qs', lookupQS st'.questionStates q.id = some qs' ∧
        qs'.consecutiveCorrect = 0 ∧ qs'.isExcluded = false := by
  have hcor : chosenIsCorrect displayed idx = false := by
    unfold chosenIsCorrect
    cases ho : optAt displayed idx with
    | none => rfl
    | some o => exact hall o (hperm.mem_iff.mp (optAt_mem ho))
  cases hl : lookupQS st.questionStates q.id with
  | some qs =>
    refine ⟨_, handleAnswer_found hans hq hl, ?_, rfl, ?_⟩
    · simp [hcor]
    · refine ⟨_, lookupQS_setQS_self _ _ _, ?_, ?_⟩ <;> simp [hcor]
  | none =>
    refine ⟨_, handleAnswer_missing_incorrect hans hq hl hcor, rfl, rfl, ?_⟩
    exact ⟨_, lookupQS_setQS_self _ _ _, rfl, rfl⟩

def optsN : List AnswerOption :=
  [{ id := 0, text := "u".data, isCorrect := false },
   { id := 1, text := "v".data, isCorrect := false },
   { id := 2, text := "w".data, isCorrect := false }]

def qN : Question := { id := 3, text := "n".data, options := optsN }

def bankN : List Question := [qN]

def stN : EngineState :=
  { questionStates := [(3, { questionId := 3, consecutiveCorrect := 2, isExcluded := false })],
    currentQuestionId := some 3,
    stats := { totalAnswers := 4, correctAnswers := 1 },
    hasAnswered := false }

theorem claim_c9_all_incorrect_witness :
    ∃ st', handleAnswer bankN optsN 5 stN = some st' ∧
      st'.stats.correctAnswers = stN.stats.correctAnswers ∧
      st'.stats.totalAnswers = stN.stats.totalAnswers + 1 ∧
      ∃ qs', lookupQS st'.questionStates qN.id = some qs' ∧
        qs'.consecutiveCorrect = 0 ∧ qs'.isExcluded = false :=
  claim_c9_all_incorrect rfl rfl (by decide) (List.Perm.refl _) rfl

/-! ## Claim C1 -/

/-- C1: (1) per answer step on the current question, the new
`consecutiveCorrect` is `previous + 1` for a correct answer and `0` for an
incorrect one, and the new `isExcluded` is `true` iff the new counter
reaches `5`; (2) in every reachable state every record has
`consecutiveCorrect` in `[0, 5]` and a counter of `5` forces exclusion in
the same state; (3) from any reachable state, no non-reset operation ever
clears an `isExcluded` flag. -/
theorem claim_c1_mastery (bank : List Question) :
    (∀ (st : EngineState) (displayed : List AnswerOption) (idx : Nat)
        (st' : EngineState) (q : Question) (qs : SessionQuestionState),
        currentQuestion bank st = some q →
        st.hasAnswered = false →
        lookupQS st.questionStates q.id = some qs →
        handleAnswer bank displayed idx st = some st' →
        ∃ qs', lookupQS st'.questionStates q.id = some qs' ∧
          qs'.consecutiveCorrect =
            (if chosenIsCorrect displayed idx then qs.consecutiveCorrect + 1 else 0) ∧
          (qs'.isExcluded = true ↔ 5 ≤ qs'.consecutiveCorrect)) ∧
    (∀ st : EngineState, Reachable bank st → ∀ p ∈ st.questionStates,
        p.2.consecutiveCorrect ≤ 5 ∧ (p.2.consecutiveCorrect = 5 → p.2.isExcluded = true)) ∧
    (∀ st st' : EngineState, Reachable bank st → NRStep bank st st' →
        ∀ (k : Nat) (qs : SessionQuestionState),
          lookupQS st.questionStates k = some qs → qs.isExcluded = true →
          ∃ qs', lookupQS st'.questionStates k = some qs' ∧ qs'.isExcluded = true) := by
  refine ⟨?_, ?_, ?_⟩
  · intro st displayed idx st' q qs hq hA hl hstep
    rw [handleAnswer_found hA hq hl] at hstep
    cases hstep
    refine ⟨_, lookupQS_setQS_self _ _ _, rfl, ?_⟩
    cases hcor : chosenIsCorrect displayed idx <;> simp [hcor]
  · intro st hreach
    exact (reachable_inv hreach).1
  · intro st st' hreach hstep k qs hl he
    exact excluded_mono (reachable_inv hreach) hstep hl he

/-! A concrete trace for the C1 witness: two questions; question 1 is
answered correctly five times, bouncing to question 2 and back between
answers (advancing twice resets the presentation), which excludes
question 1 at the fifth correct answer; one further advance keeps it
excluded. -/

def w1 : EngineState := handleInit bankW initialSt

def w2 : EngineState := handleStart bankW 0 w1

def w3 : EngineState := (handleAnswer bankW optsW 0 w2).getD w2

def w4 : EngineState := handleNext bankW 1 w3

def w5 : EngineState := handleNext bankW 0 w4

def w6 : EngineState := (handleAnswer bankW optsW 0 w5).getD w5

def w7 : EngineState := handleNext bankW 1 w6

def w8 : EngineState := handleNext bankW 0 w7

def w9 : EngineState := (handleAnswer bankW optsW 0 w8).getD w8

def w10 : EngineState := handleNext bankW 1 w9

def w11 : EngineState := handleNext bankW 0 w10

def w12 : EngineState := (handleAnswer bankW optsW 0 w11).getD w11

def w13 : EngineState := handleNext bankW 1 w12

def w14 : EngineState := handleNext bankW 0 w13

def w15 : EngineState := (handleAnswer bankW optsW 0 w14).getD w14

def w16 : EngineState := handleNext bankW 0 w15

theorem reachW15 : Reachable bankW w15 := by
  have h0 : Reachable bankW initialSt := Relation.ReflTransGen.refl
  have h1 : Reachable bankW w1 := Relation.ReflTransGen.tail h0 (EStep.nr _ NRStep.init)
  have h2 : Reachable bankW w2 :=
    Relation.ReflTransGen.tail h1 (EStep.nr _ (NRStep.start 0))
  have h3 : Reachable bankW w3 :=
    Relation.ReflTransGen.tail h2 (EStep.nr _ (NRStep.answer optsW 0 w3 (by decide)))
  have h4 : Reachable bankW w4 :=
    Relation.ReflTransGen.tail h3 (EStep.nr _ (NRStep.next 1))
  have h5 : Reachable bankW w5 :=
    Relation.ReflTransGen.tail h4 (EStep.nr _ (NRStep.next 0))
  have h6 : Reachable bankW w6 :=
    Relation.ReflTransGen.tail h5 (EStep.nr _ (NRStep.answer optsW 0 w6 (by decide)))
  have h7 : Reachable bankW w7 :=
    Relation.ReflTransGen.tail h6 (EStep.nr _ (NRStep.next 1))
  have h8 : Reachable bankW w8 :=
    Relation.ReflTransGen.tail h7 (EStep.nr _ (NRStep.next 0))
  have h9 : Reachable bankW w9 :=
    Relation.ReflTransGen.tail h8 (EStep.nr _ (NRStep.answer optsW 0 w9 (by decide)))
  have h10 : Reachable bankW w10 :=
    Relation.ReflTransGen.tail h9 (EStep.nr _ (NRStep.next 1))
  have h11 : Reachable bankW w11 :=
    Relation.ReflTransGen.tail h10 (EStep.nr _ (NRStep.next 0))
  have h12 : Reachable bankW w12 :=
    Relation.ReflTransGen.tail h11 (EStep.nr _ (NRStep.answer optsW 0 w12 (by decide)))
  have h13 : Reachable bankW w13 :=
    Relation.ReflTransGen.tail h12 (EStep.nr _ (NRStep.next 1))
  have h14 : Reachable bankW w14 :=
    Relation.ReflTransGen.tail h13 (EStep.nr _ (NRStep.next 0))
  exact Relation.ReflTransGen.tail h14 (EStep.nr _ (NRStep.answer optsW 0 w15 (by decide)))

theorem claim_c1_mastery_witness :
    (∃ qs', lookupQS w3.questionStates qA.id = some qs' ∧
       qs'.consecutiveCorrect = (if chosenIsCorrect optsW 0 then 0 + 1 else 0) ∧
       (qs'.isExcluded = true ↔ 5 ≤ qs'.consecutiveCorrect)) ∧
    (∀ p ∈ w15.questionStates,
       p.2.consecutiveCorrect ≤ 5 ∧ (p.2.consecutiveCorrect = 5 → p.2.isExcluded = true)) ∧
    (∃ qs', lookupQS w16.questionStates 1 = some qs' ∧ qs'.isExcluded = true) := by
  obtain ⟨h1, h2, h3⟩ := claim_c1_mastery bankW
  refine ⟨?_, h2 w15 reachW15, ?_⟩
  · exact h1 w2 optsW 0 w3 qA
      { questionId := 1, consecutiveCorrect := 0, isExcluded := false }
      (by decide) (by decide) (by decide) (by decide)
  · exact h3 w15 w16 reachW15 (NRStep.next 0) 1
      { questionId := 1, consecutiveCorrect := 5, isExcluded := true }
      (by decide) (by decide)

/-! ## Claim C6 -/

def c6raw : List Char :=
  "12. What color is the sky?\n* blue\nred\ngreen\n".data ++ List.replicate 35 '_' ++ ['\n']

/-- C6: the example corpus — a block with question line `12. What color is
the sky?`, option lines `* blue`, `red`, `green`, followed by a line of 35
underscores — parses to exactly the single claimed `Question`. -/
theorem claim_c6_example :
    parseQuestions c6raw =
      [{ id := 12, text := "What color is the sky?".data,
         options :=
           [{ id := 0, text := "blue".data, isCorrect := true },
            { id := 1, text := "red".data, isCorrect := false },
            { id := 2, text := "green".data, isCorrect := false }] }] := by
  decide

/-! ## Claim C3 -/

def c3block : List Char := "a\nb\nc\n1. q\nx\ny\nz".data

/-- C3 counterexample: a block none of whose first 3 non-empty lines matches
`^\d+\s*\.` is not necessarily discarded — when its 4th non-empty line
matches, the loop's fall-through takes that line as the question line and a
`Question` is produced (here from the block `a\nb\nc\n1. q\nx\ny\nz`). -/
theorem claim_c3_counterexample :
    ¬ (∀ block : List Char,
        (∀ i, i < 3 → matchesQPat ((blockLines block).getD i []) = false) →
        parseBlock block = none) := by
  intro h
  exact absurd (h c3block (by decide)) (by decide)

theorem extractId_none {l : List Char} (h : matchesQPat l = false) :
    extractId l = none := by
  unfold extractId
  rw [h]
  rfl

theorem findQIdx_of_miss {lines : List (List Char)} (hlen : 4 ≤ lines.length)
    (hw : ∀ i, i < 3 → matchesQPat (lines.getD i []) = false) :
    findQIdx lines = 3 := by
  have hmin : min 3 lines.length = 3 := by omega
  have h0 : stepQIdx lines 0 = true := by
    unfold stepQIdx
    rw [hmin, hw 0 (by omega)]
    rfl
  have h1 : stepQIdx lines 1 = true := by
    unfold stepQIdx
    rw [hmin, hw 1 (by omega)]
    rfl
  have h2 : stepQIdx lines 2 = true := by
    unfold stepQIdx
    rw [hmin, hw 2 (by omega)]
    rfl
  unfold findQIdx
  rw [h0, h1, h2]
  rfl

/-- C3 (amended): when none of the first 3 non-empty lines matches
`^\d+\s*\.`, the scan falls through to the 4th non-empty line (index 3):
the block is discarded if that line does not match either, and any produced
`Question` takes its id and text from that 4th line — so the question line
comes from within the first 4 non-empty lines, not the first 3. -/
theorem claim_c3_amended (block : List Char)
    (hw : ∀ i, i < 3 → matchesQPat ((blockLines block).getD i []) = false) :
    (matchesQPat ((blockLines block).getD 3 []) = false → parseBlock block = none) ∧
    (∀ q, parseBlock block = some q →
      extractId ((blockLines block).getD 3 []) = some q.id ∧
      q.text = trimWs (stripIdMark ((blockLines block).getD 3 []))) := by
  by_cases hlen : (blockLines block).length < 4
  · constructor
    · intro hm
      unfold parseBlock
      rw [if_pos hlen]
    · intro q hq
      unfold parseBlock at hq
      rw [if_pos hlen] at hq
      cases hq
  · have hlen' : 4 ≤ (blockLines block).length := by omega
    have hidx := findQIdx_of_miss hlen' hw
    constructor
    · intro hm
      unfold parseBlock
      rw [if_neg hlen, hidx, if_neg (by omega), extractId_none hm]
    · intro q hq
      unfold parseBlock at hq
      rw [if_neg hlen, hidx, if_neg (by omega)] at hq
      cases he : extractId ((blockLines block).getD 3 []) with
      | none =>
        rw [he] at hq
        have hq2 : (none : Option Question) = some q := hq
        cases hq2
      | some qid =>
        rw [he] at hq
        have hq2 :
            (if (optionLinesOf block).length ≠ 3 then none
             else some { id := qid,
                         text := trimWs (stripIdMark ((blockLines block).getD 3 [])),
                         options := mkOptions 0 (optionLinesOf block) } :
              Option Question) = some q := hq
        by_cases hopt : (optionLinesOf block).length ≠ 3
        · rw [if_pos hopt] at hq2
          cases hq2
        · rw [if_neg hopt] at hq2
          cases hq2
          exact ⟨rfl, rfl⟩

def c3blockB : List Char := "a\nb\nc\nx\ny\nz\nw".data

theorem claim_c3_amended_witness :
    parseBlock c3blockB = none ∧
    extractId ((blockLines c3block).getD 3 []) = some 1 := by
  constructor
  · exact (claim_c3_amended c3blockB (by decide)).1 (by decide)
  · exact ((claim_c3_amended c3block (by decide)).2
      { id := 1, text := "q".data,
        options := [{ id := 0, text := "x".data, isCorrect := false },
                    { id := 1, text := "y".data, isCorrect := false },
                    { id := 2, text := "z".data, isCorrect := false }] }
      (by decide)).1

/-! ## Claim C5 -/

theorem dedupeGo_filter_of_seen {id : Nat} (qs : List Question) (seen : List Nat)
    (hs : id ∈ seen) :
    (dedupeGo seen qs).filter (fun x => decide (x.id = id)) = [] := by
  induction qs generalizing seen with
  | nil => rfl
  | cons q r ih =>
    unfold dedupeGo
    by_cases hq : q.id ∈ seen
    · rw [if_pos hq]
      exact ih seen hs
    · rw [if_neg hq]
      have hne : ¬(q.id = id) := fun h => hq (by rw [h]; exact hs)
      rw [List.filter_cons, if_neg (by simp [hne])]
      exact ih (q.id :: seen) (List.mem_cons_of_mem _ hs)

theorem dedupeGo_filter_first {id : Nat} :
    ∀ (qs : List Question) (seen : List Nat), id ∉ seen →
    ∀ q₀ : Question, qs.find? (fun x => decide (x.id = id)) = some q₀ →
    (dedupeGo seen qs).filter (fun x => decide (x.id = id)) = [q₀] := by
  intro qs
  induction qs with
  | nil =>
    intro seen hs q₀ hf
    cases hf
  | cons q r ih =>
    intro seen hs q₀ hf
    by_cases hq : q.id = id
    · have hq0 : q₀ = q := by
        rw [List.find?_cons_of_pos _ (by simp [hq])] at hf
        exact (Option.some.inj hf).symm
      rw [hq0]
      unfold dedupeGo
      rw [if_neg (fun h => hs (by rw [← hq]; exact h))]
      rw [List.filter_cons, if_pos (by simp [hq])]
      rw [dedupeGo_filter_of_seen r (q.id :: seen) (by rw [hq]; exact List.mem_cons_self _ _)]
    · have hf' : r.find? (fun x => decide (x.id = id)) = some q₀ := by
        rw [List.find?_cons_of_neg _ (by simp [hq])] at hf
        exact hf
      unfold dedupeGo
      by_cases hqs : q.id ∈ seen
      · rw [if_pos hqs]
        exact ih seen hs q₀ hf'
      · rw [if_neg hqs]
        rw [List.filter_cons, if_neg (by simp [hq])]
        refine ih (q.id :: seen) ?_ q₀ hf'
        intro hmem
        rcases List.mem_cons.mp hmem with h | h
        · exact hq h.symm
        · exact hs h

/-- C5: if two entries of the parsed (pre-dedup) question sequence share an
id, the final output of `parseQuestions` contains exactly one `Question`
with that id, and it is the first occurrence in parse order. -/
theorem claim_c5_dedup (raw : List Char) (i j : Fin (preDedup raw).length)
    (hij : (i : Nat) < (j : Nat))
    (hid : ((preDedup raw).get i).id = ((preDedup raw).get j).id) :
    ∃ q₀,
      (preDedup raw).find? (fun x => decide (x.id = ((preDedup raw).get i).id)) = some q₀ ∧
      (parseQuestions raw).filter (fun x => decide (x.id = ((preDedup raw).get i).id)) = [q₀] := by
  cases hf : (preDedup raw).find? (fun x => decide (x.id = ((preDedup raw).get i).id)) with
  | none =>
    have hnone := List.find?_eq_none.mp hf ((preDedup raw).get i) (List.get_mem _ _ _)
    simp at hnone
  | some q₀ =>
    refine ⟨q₀, rfl, ?_⟩
    exact dedupeGo_filter_first (preDedup raw) [] (List.not_mem_nil _) q₀ hf

def rawDup : List Char :=
  "1. a\nx\ny\nz\n".data ++ List.replicate 35 '_' ++ "\n1. b\nu\nv\nw".data

theorem claim_c5_dedup_witness :
    ∃ q₀,
      (preDedup rawDup).find?
        (fun x => decide (x.id = ((preDedup rawDup).get ⟨0, by decide⟩).id)) = some q₀ ∧
      (parseQuestions rawDup).filter
        (fun x => decide (x.id = ((preDedup rawDup).get ⟨0, by decide⟩).id)) = [q₀] :=
  claim_c5_dedup rawDup ⟨0, by decide⟩ ⟨1, by decide⟩ (by decide) (by decide)
